import Mathlib

/-!
Shallow embedding of the time-triggered schedulers in
`src/Workshops/PatternsArchitecture/CodeExamples/CyclicExecutive/CyclicExecutive.hpp`
(namespace `cyclic_executive`): the `CyclicExecutive` period scheduler and the
`TimeSlotScheduler` fixed-slot scheduler.

Machine integers: all `uint32_t` fields are modelled as `Nat` reduced modulo
`2^32` at every write, and the unsigned subtraction `a - b` of the source is
`u32sub`.  `ITask*` pointers are modelled as opaque `Nat` identifiers; a call
`task->run()` is recorded in the return value of the dispatch function (a list
of per-entry fired flags for the cyclic executive, the list of dispatched task
identifiers for the slot scheduler) rather than as an external side effect.
The fixed C++ arrays with an explicit element count (`tasks_` / `numTasks_`,
`Slot::tasks` / `Slot::taskCount`) are modelled as Lean lists holding exactly
the active prefix; the capacity template parameters `MAX_TASKS`,
`SLOTS_PER_CYCLE`, `MAX_TASKS_PER_SLOT` become explicit arguments.
-/

namespace CyclicExec

/-- `2^32`, the modulus of `uint32_t` arithmetic. -/
def U32 : Nat := 4294967296

/-- Unsigned 32-bit subtraction `a - b` of the source, on values already
reduced or not: `(a - b) mod 2^32`. -/
def u32sub (a b : Nat) : Nat := (a % U32 + U32 - b % U32) % U32

/-- `struct TaskEntry` of the source: task pointer (opaque id), `periodMs`,
`lastRunMs`, `runCount`. -/
structure TaskEntry where
  task : Nat
  periodMs : Nat
  lastRunMs : Nat
  runCount : Nat
deriving DecidableEq, Repr

/-- The default `TaskEntry` used by total list indexing. -/
def defaultEntry : TaskEntry := ⟨0, 0, 0, 0⟩

/-- State of `CyclicExecutive<MAX_TASKS>`: the active entries
`tasks_[0 .. numTasks_)` and the `volatile uint32_t currentTimeMs_`. -/
structure CyclicExecutive where
  tasks : List TaskEntry
  currentTimeMs : Nat
deriving DecidableEq, Repr

/-- The constructor `CyclicExecutive() : numTasks_(0), currentTimeMs_(0)`. -/
def mkCyclicExecutive : CyclicExecutive := ⟨[], 0⟩

/-- `CyclicExecutive::addTask(task, periodMs)`: fails when the registry is
full, otherwise appends an entry with `lastRunMs = 0` and `runCount = 0`.
`maxTasks` is the template parameter `MAX_TASKS`; the `uint32_t` parameter
conversion reduces `periodMs` modulo `2^32`. -/
def CyclicExecutive.addTask (ce : CyclicExecutive) (maxTasks task periodMs : Nat) :
    Bool × CyclicExecutive :=
  if ce.tasks.length ≥ maxTasks then (false, ce)
  else (true, { ce with tasks := ce.tasks ++ [⟨task, periodMs % U32, 0, 0⟩] })

/-- `CyclicExecutive::tick()`: `currentTimeMs_++` with `uint32_t` wraparound. -/
def CyclicExecutive.tick (ce : CyclicExecutive) : CyclicExecutive :=
  { ce with currentTimeMs := (ce.currentTimeMs + 1) % U32 }

/-- `n` consecutive `tick()` calls. -/
def CyclicExecutive.tickN : Nat → CyclicExecutive → CyclicExecutive
  | 0, ce => ce
  | Nat.succ k, ce => (CyclicExecutive.tickN k ce).tick

/-- The loop body of `CyclicExecutive::run()` for one entry at time `now`:
computes `elapsed = currentTimeMs_ - entry.lastRunMs` in `uint32_t`, and if
`elapsed >= entry.periodMs` runs the task (flag `true`), sets
`lastRunMs = now` and increments `runCount`. -/
def stepEntry (now : Nat) (e : TaskEntry) : TaskEntry × Bool :=
  if u32sub now e.lastRunMs ≥ e.periodMs then
    ({ e with lastRunMs := now, runCount := (e.runCount + 1) % U32 }, true)
  else (e, false)

/-- `CyclicExecutive::run()`: one dispatch pass over all entries in
registration order.  Returns the new state and the per-entry fired flags. -/
def CyclicExecutive.run (ce : CyclicExecutive) : CyclicExecutive × List Bool :=
  let stepped := ce.tasks.map (stepEntry ce.currentTimeMs)
  ({ ce with tasks := stepped.map Prod.fst }, stepped.map Prod.snd)

/-- `CyclicExecutive::getTaskRunCount(index)`: `runCount` of entry `index`,
or `0` when `index` is out of range. -/
def CyclicExecutive.getTaskRunCount (ce : CyclicExecutive) (index : Nat) : Nat :=
  (ce.tasks.getD index defaultEntry).runCount

/-- `struct Slot` of the source: the active task pointers
`tasks[0 .. taskCount)`. -/
structure Slot where
  tasks : List Nat
deriving DecidableEq, Repr

/-- State of `TimeSlotScheduler<SLOTS_PER_CYCLE, MAX_TASKS_PER_SLOT>`. -/
structure TimeSlotScheduler where
  slots : List Slot
  slotDurationMs : Nat
  currentSlot : Nat
  currentTimeMs : Nat
  lastSlotTimeMs : Nat
deriving DecidableEq, Repr

/-- The constructor `TimeSlotScheduler(slotDurationMs)`: all
`SLOTS_PER_CYCLE` slots empty, `currentSlot_ = 0`, `currentTimeMs_ = 0`,
`lastSlotTimeMs_ = 0`. -/
def mkTimeSlotScheduler (slotsPerCycle slotDurationMs : Nat) : TimeSlotScheduler :=
  ⟨List.replicate slotsPerCycle ⟨[]⟩, slotDurationMs % U32, 0, 0, 0⟩

/-- `TimeSlotScheduler::addTaskToSlot(slotIndex, task)`: fails when
`slotIndex` is out of range or the slot is full, otherwise appends `task` to
that slot.  `maxTasksPerSlot` is the template parameter `MAX_TASKS_PER_SLOT`. -/
def TimeSlotScheduler.addTaskToSlot (s : TimeSlotScheduler)
    (maxTasksPerSlot slotIndex task : Nat) : Bool × TimeSlotScheduler :=
  if slotIndex ≥ s.slots.length then (false, s)
  else
    let slot := s.slots.getD slotIndex ⟨[]⟩
    if slot.tasks.length ≥ maxTasksPerSlot then (false, s)
    else (true, { s with slots := s.slots.set slotIndex ⟨slot.tasks ++ [task]⟩ })

/-- `TimeSlotScheduler::tick()`: `currentTimeMs_++` with wraparound. -/
def TimeSlotScheduler.tick (s : TimeSlotScheduler) : TimeSlotScheduler :=
  { s with currentTimeMs := (s.currentTimeMs + 1) % U32 }

/-- `n` consecutive `tick()` calls. -/
def TimeSlotScheduler.tickN : Nat → TimeSlotScheduler → TimeSlotScheduler
  | 0, s => s
  | Nat.succ k, s => (TimeSlotScheduler.tickN k s).tick

/-- `TimeSlotScheduler::run()`: if `currentTimeMs_ - lastSlotTimeMs_` (in
`uint32_t`) has reached the slot duration, dispatch every task of the current
slot in insertion order, advance `currentSlot_` by one modulo the slot count
and reset `lastSlotTimeMs_`; otherwise do nothing.  Returns the new state and
the list of dispatched task identifiers. -/
def TimeSlotScheduler.run (s : TimeSlotScheduler) : TimeSlotScheduler × List Nat :=
  let elapsed := u32sub s.currentTimeMs s.lastSlotTimeMs
  if elapsed ≥ s.slotDurationMs then
    let slot := s.slots.getD s.currentSlot ⟨[]⟩
    ({ s with
        currentSlot := (s.currentSlot + 1) % s.slots.length,
        lastSlotTimeMs := s.currentTimeMs }, slot.tasks)
  else (s, [])

/-- `TimeSlotScheduler::getCurrentSlot()`. -/
def TimeSlotScheduler.getCurrentSlot (s : TimeSlotScheduler) : Nat := s.currentSlot

/-- The slot-scheduler states reachable through the public interface, for a
fixed per-slot capacity and a positive number of slots. -/
inductive TimeSlotScheduler.Reachable (maxTasksPerSlot : Nat) : TimeSlotScheduler → Prop where
  | init (slotsPerCycle slotDurationMs : Nat) (h : 1 ≤ slotsPerCycle) :
      TimeSlotScheduler.Reachable maxTasksPerSlot
        (mkTimeSlotScheduler slotsPerCycle slotDurationMs)
  | tick {s : TimeSlotScheduler} :
      TimeSlotScheduler.Reachable maxTasksPerSlot s →
      TimeSlotScheduler.Reachable maxTasksPerSlot s.tick
  | run {s : TimeSlotScheduler} :
      TimeSlotScheduler.Reachable maxTasksPerSlot s →
      TimeSlotScheduler.Reachable maxTasksPerSlot s.run.fst
  | add {s : TimeSlotScheduler} (slotIndex task : Nat) :
      TimeSlotScheduler.Reachable maxTasksPerSlot s →
      TimeSlotScheduler.Reachable maxTasksPerSlot
        (s.addTaskToSlot maxTasksPerSlot slotIndex task).snd

/-! ### Helper lemmas -/

theorem u32sub_self (a : Nat) : u32sub a a = 0 := by
  simp [u32sub]

theorem u32sub_zero (a : Nat) (h : a < U32) : u32sub a 0 = a := by
  simp [u32sub, U32] at *
  omega

theorem u32sub_add_ticks (a k : Nat) (ha : a < U32) (hk : k < U32) :
    u32sub ((a + k) % U32) a = k := by
  simp [u32sub, U32] at *
  omega

theorem run_fst_currentTimeMs (ce : CyclicExecutive) :
    ce.run.fst.currentTimeMs = ce.currentTimeMs := rfl

theorem run_fst_tasks (ce : CyclicExecutive) :
    ce.run.fst.tasks = ce.tasks.map (fun e => (stepEntry ce.currentTimeMs e).fst) := by
  simp [CyclicExecutive.run]

theorem run_snd (ce : CyclicExecutive) :
    ce.run.snd = ce.tasks.map (fun e => (stepEntry ce.currentTimeMs e).snd) := by
  simp [CyclicExecutive.run]

theorem run_fst_tasks_length (ce : CyclicExecutive) :
    ce.run.fst.tasks.length = ce.tasks.length := by
  simp [run_fst_tasks]

theorem run_fst_tasks_getD (ce : CyclicExecutive) (i : Nat) (hi : i < ce.tasks.length) :
    ce.run.fst.tasks.getD i defaultEntry =
      (stepEntry ce.currentTimeMs (ce.tasks.getD i defaultEntry)).fst := by
  rw [run_fst_tasks]
  rw [List.getD_eq_getElem _ _ (by simpa using hi), List.getElem_map,
      List.getD_eq_getElem _ _ hi]

theorem run_snd_getD (ce : CyclicExecutive) (i : Nat) (hi : i < ce.tasks.length) :
    ce.run.snd.getD i false =
      (stepEntry ce.currentTimeMs (ce.tasks.getD i defaultEntry)).snd := by
  rw [run_snd]
  rw [List.getD_eq_getElem _ _ (by simpa using hi), List.getElem_map,
      List.getD_eq_getElem _ _ hi]

theorem tickN_tasks (n : Nat) (ce : CyclicExecutive) :
    (CyclicExecutive.tickN n ce).tasks = ce.tasks := by
  induction n with
  | zero => rfl
  | succ k ih => simp [CyclicExecutive.tickN, CyclicExecutive.tick, ih]

theorem tickN_time (n : Nat) (ce : CyclicExecutive) (h : ce.currentTimeMs < U32) :
    (CyclicExecutive.tickN n ce).currentTimeMs = (ce.currentTimeMs + n) % U32 := by
  induction n with
  | zero =>
      simp only [CyclicExecutive.tickN, Nat.add_zero]
      exact (Nat.mod_eq_of_lt h).symm
  | succ k ih =>
      simp only [CyclicExecutive.tickN, CyclicExecutive.tick, ih]
      simp only [U32]
      omega

theorem stepEntry_periodMs (now : Nat) (e : TaskEntry) :
    (stepEntry now e).fst.periodMs = e.periodMs := by
  simp only [stepEntry]
  split <;> rfl

theorem stepEntry_task (now : Nat) (e : TaskEntry) :
    (stepEntry now e).fst.task = e.task := by
  simp only [stepEntry]
  split <;> rfl

theorem ce_ext {a b : CyclicExecutive} (h1 : a.tasks = b.tasks)
    (h2 : a.currentTimeMs = b.currentTimeMs) : a = b := by
  cases a; cases b; simp_all

theorem add_mod_inj (S n x y : Nat) (hx : x < n) (hy : y < n)
    (h : (S + x) % n = (S + y) % n) : x = y := by
  have h2 : x ≡ y [MOD n] := Nat.ModEq.add_left_cancel' S h
  have h3 : x % n = y % n := h2
  rwa [Nat.mod_eq_of_lt hx, Nat.mod_eq_of_lt hy] at h3

theorem add_mod_cover (S n a : Nat) (hn : 1 ≤ n) (ha : a < n) :
    (S + (a + n - S % n) % n) % n = a := by
  have h1 : S + (a + n - S % n) % n ≡ S + (a + n - S % n) [MOD n] :=
    Nat.ModEq.add_left S (Nat.mod_modEq _ n)
  have h2 : S + (a + n - S % n) ≡ S % n + (a + n - S % n) [MOD n] :=
    Nat.ModEq.add_right _ (Nat.mod_modEq S n).symm
  have hm : S % n < n := Nat.mod_lt S hn
  have h4 : S % n + (a + n - S % n) = a + n := by omega
  have h5 : a + n ≡ a [MOD n] := by
    show (a + n) % n = a % n
    exact Nat.add_mod_right a n
  have h5b : S % n + (a + n - S % n) ≡ a [MOD n] := by rw [h4]; exact h5
  have h6 : S + (a + n - S % n) % n ≡ a [MOD n] := (h1.trans h2).trans h5b
  have h7 : (S + (a + n - S % n) % n) % n = a % n := h6
  rwa [Nat.mod_eq_of_lt ha] at h7

/-! ### Concrete driving scenarios -/

/-- Two tasks with periods 10 and 25 registered into a fresh cyclic
executive, then 50 `tick()` calls. -/
def scenario50 : CyclicExecutive :=
  CyclicExecutive.tickN 50 (((mkCyclicExecutive.addTask 8 1 10).snd).addTask 8 2 25).snd

/-! ### Claim theorems -/

/-- C1: a single `run()` call in which a task is due (unsigned elapsed time
since its last run is at least its period) fires that task exactly once and
increments its run count by exactly one, however many multiples of the period
have elapsed; concretely, periods 10 and 25 registered at time 0, 50 ticks,
one `run()` gives run count 1 for each task, not `floor(elapsed/period)`. -/
theorem due_task_fires_exactly_once_per_run (ce : CyclicExecutive) (i : Nat)
    (hi : i < ce.tasks.length)
    (hdue : u32sub ce.currentTimeMs (ce.tasks.getD i defaultEntry).lastRunMs ≥
      (ce.tasks.getD i defaultEntry).periodMs) :
    ce.run.snd.getD i false = true ∧
    (ce.run.fst.tasks.getD i defaultEntry).runCount =
      ((ce.tasks.getD i defaultEntry).runCount + 1) % U32 ∧
    scenario50.run.fst.getTaskRunCount 0 = 1 ∧
    scenario50.run.fst.getTaskRunCount 1 = 1 := by
  refine ⟨?_, ?_, by decide, by decide⟩
  · rw [run_snd_getD ce i hi]
    simp only [stepEntry, if_pos hdue]
  · rw [run_fst_tasks_getD ce i hi]
    simp only [stepEntry, if_pos hdue]

/-- Witness for C1 at the concrete 50-tick scenario, task index 0. -/
theorem due_task_fires_exactly_once_per_run_witness :
    0 < scenario50.tasks.length ∧
    u32sub scenario50.currentTimeMs (scenario50.tasks.getD 0 defaultEntry).lastRunMs ≥
      (scenario50.tasks.getD 0 defaultEntry).periodMs ∧
    scenario50.run.snd.getD 0 false = true :=
  ⟨by decide, by decide,
    (due_task_fires_exactly_once_per_run scenario50 0 (by decide) (by decide)).1⟩

/-- C7: a task registered with period 0 fires on every `run()` call, with its
run count incremented by one each time, including on a second consecutive
`run()` with no intervening `tick()`. -/
theorem period_zero_task_runs_every_pass (ce : CyclicExecutive) (i : Nat)
    (hi : i < ce.tasks.length)
    (hp : (ce.tasks.getD i defaultEntry).periodMs = 0) :
    ce.run.snd.getD i false = true ∧
    (ce.run.fst.tasks.getD i defaultEntry).runCount =
      ((ce.tasks.getD i defaultEntry).runCount + 1) % U32 ∧
    ce.run.fst.run.snd.getD i false = true := by
  have hdue : u32sub ce.currentTimeMs (ce.tasks.getD i defaultEntry).lastRunMs ≥
      (ce.tasks.getD i defaultEntry).periodMs := by
    rw [hp]; exact Nat.zero_le _
  have hi2 : i < ce.run.fst.tasks.length := by rw [run_fst_tasks_length]; exact hi
  have hp2 : (ce.run.fst.tasks.getD i defaultEntry).periodMs = 0 := by
    rw [run_fst_tasks_getD ce i hi, stepEntry_periodMs]; exact hp
  have hdue2 : u32sub ce.run.fst.currentTimeMs
      (ce.run.fst.tasks.getD i defaultEntry).lastRunMs ≥
      (ce.run.fst.tasks.getD i defaultEntry).periodMs := by
    rw [hp2]; exact Nat.zero_le _
  refine ⟨?_, ?_, ?_⟩
  · rw [run_snd_getD ce i hi]
    simp only [stepEntry, if_pos hdue]
  · rw [run_fst_tasks_getD ce i hi]
    simp only [stepEntry, if_pos hdue]
  · rw [run_snd_getD ce.run.fst i hi2]
    simp only [stepEntry, if_pos hdue2]

/-- Witness for C7: a fresh scheduler holding one period-0 task. -/
theorem period_zero_task_runs_every_pass_witness :
    0 < ((mkCyclicExecutive.addTask 8 1 0).snd).tasks.length ∧
    (((mkCyclicExecutive.addTask 8 1 0).snd).tasks.getD 0 defaultEntry).periodMs = 0 ∧
    ((mkCyclicExecutive.addTask 8 1 0).snd).run.fst.run.snd.getD 0 false = true :=
  ⟨by decide, by decide,
    (period_zero_task_runs_every_pass (mkCyclicExecutive.addTask 8 1 0).snd 0
      (by decide) (by decide)).2.2⟩

/-- C9: on both schedulers `tick()` increments the time counter by exactly one
modulo `2^32` and changes no other field: for the cyclic executive the whole
task array (entries, periods, last-run times, run counts) and hence the task
count; for the time-slot scheduler every slot, the current slot, the slot
duration and the last-transition time. -/
theorem tick_increments_only_time (ce : CyclicExecutive) (s : TimeSlotScheduler) :
    ce.tick.tasks = ce.tasks ∧
    ce.tick.currentTimeMs = (ce.currentTimeMs + 1) % U32 ∧
    s.tick.slots = s.slots ∧
    s.tick.currentSlot = s.currentSlot ∧
    s.tick.slotDurationMs = s.slotDurationMs ∧
    s.tick.lastSlotTimeMs = s.lastSlotTimeMs ∧
    s.tick.currentTimeMs = (s.currentTimeMs + 1) % U32 :=
  ⟨rfl, rfl, rfl, rfl, rfl, rfl, rfl⟩

/-- A fresh cyclic executive holding a single task registered with period 0. -/
def period0Exec : CyclicExecutive := (mkCyclicExecutive.addTask 8 1 0).snd

/-- One dispatch step is idempotent on an entry whose period is positive:
after it fires (or stays idle), re-dispatching at the same time does nothing. -/
theorem stepEntry_idem (now : Nat) (e : TaskEntry) (hp : 1 ≤ e.periodMs) :
    stepEntry now (stepEntry now e).fst = ((stepEntry now e).fst, false) := by
  by_cases h : u32sub now e.lastRunMs ≥ e.periodMs
  · simp only [stepEntry, if_pos h]
    rw [if_neg]
    simp only [u32sub_self]
    omega
  · simp only [stepEntry, if_neg h]

/-- C2 counterexample: with a single period-0 task registered, a second
`run()` with no intervening `tick()` executes the task again and raises its
run count from 1 to 2. -/
theorem run_twice_fires_period_zero_again :
    period0Exec.run.fst.run.snd = [true] ∧
    period0Exec.run.fst.run.fst.getTaskRunCount 0 = 2 := by decide

/-- C2 as amended: provided every registered task has a positive period,
calling `run()` twice with no intervening `tick()` executes no task on the
second call and leaves the scheduler state (hence every run count)
unchanged. -/
theorem run_idempotent_without_tick (ce : CyclicExecutive)
    (hp : ∀ e ∈ ce.tasks, 1 ≤ e.periodMs) :
    ce.run.fst.run.fst = ce.run.fst ∧
    ∀ b ∈ ce.run.fst.run.snd, b = false := by
  constructor
  · refine ce_ext ?_ rfl
    rw [run_fst_tasks ce.run.fst, run_fst_currentTimeMs, run_fst_tasks, List.map_map]
    refine List.map_congr_left ?_
    intro e he
    show (stepEntry ce.currentTimeMs ((stepEntry ce.currentTimeMs e).fst)).fst =
      (stepEntry ce.currentTimeMs e).fst
    rw [stepEntry_idem ce.currentTimeMs e (hp e he)]
  · intro b hb
    rw [run_snd, run_fst_currentTimeMs, run_fst_tasks, List.map_map] at hb
    obtain ⟨e, he, hbe⟩ := List.mem_map.mp hb
    rw [← hbe]
    show (stepEntry ce.currentTimeMs ((stepEntry ce.currentTimeMs e).fst)).snd = false
    rw [stepEntry_idem ce.currentTimeMs e (hp e he)]

/-- Witness for the amended C2: one task with period 2. -/
theorem run_idempotent_without_tick_witness :
    (∀ e ∈ ((mkCyclicExecutive.addTask 8 1 2).snd).tasks, 1 ≤ e.periodMs) ∧
    ((mkCyclicExecutive.addTask 8 1 2).snd).run.fst.run.fst =
      ((mkCyclicExecutive.addTask 8 1 2).snd).run.fst :=
  ⟨by decide, (run_idempotent_without_tick (mkCyclicExecutive.addTask 8 1 2).snd (by decide)).1⟩

/-- C10: on a successful `addTask` the new entry's last-run time is
initialized to 0 (never to the current time); consequently a task registered
with period `P` while the counter reads `T ≥ P` is already due and fires on
the very next `run()` call even though no ticks have occurred since
registration. -/
theorem addTask_lastRun_zero_immediately_due (ce : CyclicExecutive)
    (maxTasks task P : Nat)
    (hcap : ce.tasks.length < maxTasks) (hP : P < U32)
    (hT : ce.currentTimeMs < U32) (hPT : P ≤ ce.currentTimeMs) :
    (ce.addTask maxTasks task P).snd.tasks.getD ce.tasks.length defaultEntry =
      ⟨task, P, 0, 0⟩ ∧
    (ce.addTask maxTasks task P).snd.run.snd.getD ce.tasks.length false = true := by
  have hne : ¬ ce.tasks.length ≥ maxTasks := by omega
  have hsnd : (ce.addTask maxTasks task P).snd =
      { ce with tasks := ce.tasks ++ [⟨task, P % U32, 0, 0⟩] } := by
    simp only [CyclicExecutive.addTask, if_neg hne]
  have hPmod : P % U32 = P := Nat.mod_eq_of_lt hP
  have hentry : (ce.tasks ++ [(⟨task, P % U32, 0, 0⟩ : TaskEntry)]).getD
      ce.tasks.length defaultEntry = ⟨task, P, 0, 0⟩ := by
    rw [List.getD_append_right _ _ _ _ (Nat.le_refl _), Nat.sub_self]
    simp [hPmod]
  constructor
  · rw [hsnd]; exact hentry
  · have hlen : ce.tasks.length <
        (ce.addTask maxTasks task P).snd.tasks.length := by
      rw [hsnd]; simp
    rw [run_snd_getD _ _ hlen]
    have htime : (ce.addTask maxTasks task P).snd.currentTimeMs =
        ce.currentTimeMs := by rw [hsnd]
    rw [htime]
    have : (ce.addTask maxTasks task P).snd.tasks.getD ce.tasks.length defaultEntry =
        ⟨task, P, 0, 0⟩ := by rw [hsnd]; exact hentry
    rw [this]
    simp only [stepEntry]
    rw [if_pos]
    rw [u32sub_zero _ hT]
    exact hPT

/-- Witness for C10: registering a period-3 task at time 5 fires at once. -/
theorem addTask_lastRun_zero_immediately_due_witness :
    (CyclicExecutive.tickN 5 mkCyclicExecutive).tasks.length < 8 ∧
    (3 : Nat) < U32 ∧
    (CyclicExecutive.tickN 5 mkCyclicExecutive).currentTimeMs < U32 ∧
    3 ≤ (CyclicExecutive.tickN 5 mkCyclicExecutive).currentTimeMs ∧
    ((CyclicExecutive.tickN 5 mkCyclicExecutive).addTask 8 1 3).snd.run.snd.getD
      (CyclicExecutive.tickN 5 mkCyclicExecutive).tasks.length false = true :=
  ⟨by decide, by decide, by decide, by decide,
    (addTask_lastRun_zero_immediately_due (CyclicExecutive.tickN 5 mkCyclicExecutive)
      8 1 3 (by decide) (by decide) (by decide) (by decide)).2⟩

/-- A freshly constructed cyclic executive with one task of period `P`. -/
def freshWithPeriod (P : Nat) : CyclicExecutive := (mkCyclicExecutive.addTask 8 1 P).snd

theorem freshWithPeriod_eq (P : Nat) (hP : P < U32) :
    freshWithPeriod P = ⟨[⟨1, P, 0, 0⟩], 0⟩ := by
  simp [freshWithPeriod, mkCyclicExecutive, CyclicExecutive.addTask,
    Nat.mod_eq_of_lt hP]

/-- Run count of the single task of `freshWithPeriod P` after `n` ticks and
one dispatch: 1 when `n` has reached the period, 0 otherwise. -/
theorem fresh_tick_run (P n : Nat) (hP : P < U32) (hn : n < U32) :
    ((CyclicExecutive.tickN n (freshWithPeriod P)).run).fst.getTaskRunCount 0 =
      if P ≤ n then 1 else 0 := by
  have hfresh := freshWithPeriod_eq P hP
  have htasks : (CyclicExecutive.tickN n (freshWithPeriod P)).tasks =
      [⟨1, P, 0, 0⟩] := by rw [tickN_tasks, hfresh]
  have htime : (CyclicExecutive.tickN n (freshWithPeriod P)).currentTimeMs = n := by
    rw [tickN_time _ _ (by rw [hfresh]; exact Nat.pos_of_ne_zero (by simp [U32]))]
    rw [hfresh]
    simpa using Nat.mod_eq_of_lt hn
  have hlen : 0 < (CyclicExecutive.tickN n (freshWithPeriod P)).tasks.length := by
    rw [htasks]; simp
  rw [CyclicExecutive.getTaskRunCount, run_fst_tasks_getD _ 0 hlen, htasks, htime]
  simp only [List.getD_cons_zero, stepEntry]
  rw [u32sub_zero n hn]
  by_cases h : P ≤ n
  · rw [if_pos h, if_pos h]
    show (0 + 1) % U32 = 1
    decide
  · rw [if_neg h, if_neg h]

/-- C4: a task registered with period `P ≥ 1` into a fresh scheduler has run
count 1 after exactly `P` ticks followed by one `run()`, and run count 0
after exactly `P - 1` ticks followed by one `run()`. -/
theorem period_boundary_run_counts (P : Nat) (h1 : 1 ≤ P) (h2 : P < U32) :
    ((CyclicExecutive.tickN P (freshWithPeriod P)).run).fst.getTaskRunCount 0 = 1 ∧
    ((CyclicExecutive.tickN (P - 1) (freshWithPeriod P)).run).fst.getTaskRunCount 0 = 0 := by
  constructor
  · rw [fresh_tick_run P P h2 h2, if_pos (Nat.le_refl P)]
  · rw [fresh_tick_run P (P - 1) h2 (by omega), if_neg (by omega)]

/-- Witness for C4 at `P = 5`. -/
theorem period_boundary_run_counts_witness :
    (1 ≤ 5 ∧ (5 : Nat) < U32) ∧
    ((CyclicExecutive.tickN 5 (freshWithPeriod 5)).run).fst.getTaskRunCount 0 = 1 ∧
    ((CyclicExecutive.tickN 4 (freshWithPeriod 5)).run).fst.getTaskRunCount 0 = 0 :=
  ⟨⟨by decide, by decide⟩, period_boundary_run_counts 5 (by decide) (by decide)⟩

/-! ### Registration scenarios at capacity 2 -/

/-- First registration into a capacity-2 cyclic executive. -/
def regA : Bool × CyclicExecutive := mkCyclicExecutive.addTask 2 1 10

/-- Second registration into the capacity-2 cyclic executive. -/
def regB : Bool × CyclicExecutive := regA.snd.addTask 2 2 20

/-- Third registration: the registry is full. -/
def regC : Bool × CyclicExecutive := regB.snd.addTask 2 3 30

/-- Three registrations into slot 0 of a 4-slot scheduler with per-slot
capacity 2, plus one registration with an out-of-range slot index. -/
def slotRegA : Bool × TimeSlotScheduler := (mkTimeSlotScheduler 4 10).addTaskToSlot 2 0 1

/-- Second slot-0 registration. -/
def slotRegB : Bool × TimeSlotScheduler := slotRegA.snd.addTaskToSlot 2 0 2

/-- Third slot-0 registration: the slot is full. -/
def slotRegC : Bool × TimeSlotScheduler := slotRegB.snd.addTaskToSlot 2 0 3

/-- Registration with an out-of-range slot index. -/
def slotRegOob : Bool × TimeSlotScheduler := (mkTimeSlotScheduler 4 10).addTaskToSlot 2 7 9

/-- C3: registration failure is exactly the closed error taxonomy and never
mutates state.  Under the capacity invariants, `addTask` returns `false` iff
the registry holds its maximum number of tasks, and `addTaskToSlot` returns
`false` iff the slot index is out of range or the target slot is full; a
failed call returns the state unchanged; after 2 successful registrations at
capacity 2 the third fails and the count stays 2, for the registry and for a
slot alike. -/
theorem registration_fails_iff_full (ce : CyclicExecutive)
    (maxTasks task periodMs : Nat) (hinv : ce.tasks.length ≤ maxTasks)
    (s : TimeSlotScheduler) (maxTasksPerSlot slotIndex t2 : Nat)
    (hsinv : (s.slots.getD slotIndex ⟨[]⟩).tasks.length ≤ maxTasksPerSlot) :
    ((ce.addTask maxTasks task periodMs).fst = false ↔
      ce.tasks.length = maxTasks) ∧
    ((ce.addTask maxTasks task periodMs).fst = false →
      (ce.addTask maxTasks task periodMs).snd = ce) ∧
    ((s.addTaskToSlot maxTasksPerSlot slotIndex t2).fst = false ↔
      (s.slots.length ≤ slotIndex ∨
        (s.slots.getD slotIndex ⟨[]⟩).tasks.length = maxTasksPerSlot)) ∧
    ((s.addTaskToSlot maxTasksPerSlot slotIndex t2).fst = false →
      (s.addTaskToSlot maxTasksPerSlot slotIndex t2).snd = s) ∧
    regA.fst = true ∧ regB.fst = true ∧ regC.fst = false ∧
    regC.snd.tasks.length = 2 ∧ regC.snd = regB.snd ∧
    slotRegA.fst = true ∧ slotRegB.fst = true ∧ slotRegC.fst = false ∧
    (slotRegC.snd.slots.getD 0 ⟨[]⟩).tasks.length = 2 ∧
    slotRegC.snd = slotRegB.snd ∧ slotRegOob.fst = false := by
  refine ⟨?_, ?_, ?_, ?_, by decide, by decide, by decide, by decide, by decide,
    by decide, by decide, by decide, by decide, by decide, by decide⟩
  · by_cases h : ce.tasks.length ≥ maxTasks
    · simp only [CyclicExecutive.addTask, if_pos h]
      exact ⟨fun _ => Nat.le_antisymm hinv h, fun _ => trivial⟩
    · simp only [CyclicExecutive.addTask, if_neg h]
      constructor
      · intro hf
        exact absurd hf (by decide)
      · intro he
        exfalso
        omega
  · intro hf
    by_cases h : ce.tasks.length ≥ maxTasks
    · simp only [CyclicExecutive.addTask, if_pos h]
    · simp only [CyclicExecutive.addTask, if_neg h] at hf
      simp at hf
  · by_cases h : slotIndex ≥ s.slots.length
    · simp only [TimeSlotScheduler.addTaskToSlot, if_pos h]
      exact ⟨fun _ => Or.inl h, fun _ => trivial⟩
    · by_cases h2 : (s.slots.getD slotIndex ⟨[]⟩).tasks.length ≥ maxTasksPerSlot
      · simp only [TimeSlotScheduler.addTaskToSlot, if_neg h, if_pos h2]
        exact ⟨fun _ => Or.inr (Nat.le_antisymm hsinv h2), fun _ => trivial⟩
      · simp only [TimeSlotScheduler.addTaskToSlot, if_neg h, if_neg h2]
        constructor
        · intro hf
          exact absurd hf (by decide)
        · intro hor
          exfalso
          rcases hor with h3 | h3
          · omega
          · omega
  · intro hf
    by_cases h : slotIndex ≥ s.slots.length
    · simp only [TimeSlotScheduler.addTaskToSlot, if_pos h]
    · by_cases h2 : (s.slots.getD slotIndex ⟨[]⟩).tasks.length ≥ maxTasksPerSlot
      · simp only [TimeSlotScheduler.addTaskToSlot, if_neg h, if_pos h2]
      · simp only [TimeSlotScheduler.addTaskToSlot, if_neg h, if_neg h2] at hf
        simp at hf

/-- Witness for C3: the registry invariant and slot invariant hold on the
fresh schedulers, and a full capacity-0 registry rejects registration. -/
theorem registration_fails_iff_full_witness :
    mkCyclicExecutive.tasks.length ≤ 0 ∧
    ((mkTimeSlotScheduler 4 10).slots.getD 0 ⟨[]⟩).tasks.length ≤ 2 ∧
    ((mkCyclicExecutive.addTask 0 1 10).fst = false ↔
      mkCyclicExecutive.tasks.length = 0) :=
  ⟨by decide, by decide,
    (registration_fails_iff_full mkCyclicExecutive 0 1 10 (by decide)
      (mkTimeSlotScheduler 4 10) 2 0 5 (by decide)).1⟩

/-! ### Time-slot scheduler frame lemmas -/

theorem runSlot_slots (s : TimeSlotScheduler) : s.run.fst.slots = s.slots := by
  simp only [TimeSlotScheduler.run]
  split <;> rfl

theorem runSlot_dur (s : TimeSlotScheduler) :
    s.run.fst.slotDurationMs = s.slotDurationMs := by
  simp only [TimeSlotScheduler.run]
  split <;> rfl

theorem runSlot_time (s : TimeSlotScheduler) :
    s.run.fst.currentTimeMs = s.currentTimeMs := by
  simp only [TimeSlotScheduler.run]
  split <;> rfl

theorem runSlot_pos (s : TimeSlotScheduler)
    (h : u32sub s.currentTimeMs s.lastSlotTimeMs ≥ s.slotDurationMs) :
    s.run = ({ s with
        currentSlot := (s.currentSlot + 1) % s.slots.length,
        lastSlotTimeMs := s.currentTimeMs },
      (s.slots.getD s.currentSlot ⟨[]⟩).tasks) := by
  simp only [TimeSlotScheduler.run, if_pos h]

theorem runSlot_neg (s : TimeSlotScheduler)
    (h : u32sub s.currentTimeMs s.lastSlotTimeMs < s.slotDurationMs) :
    s.run = (s, []) := by
  simp only [TimeSlotScheduler.run, if_neg (Nat.not_le.mpr h)]

theorem addSlot_slots_length (s : TimeSlotScheduler) (m i t : Nat) :
    (s.addTaskToSlot m i t).snd.slots.length = s.slots.length := by
  simp only [TimeSlotScheduler.addTaskToSlot]
  split
  · rfl
  · split
    · rfl
    · simp

theorem addSlot_currentSlot (s : TimeSlotScheduler) (m i t : Nat) :
    (s.addTaskToSlot m i t).snd.currentSlot = s.currentSlot := by
  simp only [TimeSlotScheduler.addTaskToSlot]
  split
  · rfl
  · split <;> rfl

theorem tickNSlot_slots (n : Nat) (s : TimeSlotScheduler) :
    (TimeSlotScheduler.tickN n s).slots = s.slots := by
  induction n with
  | zero => rfl
  | succ k ih => simp [TimeSlotScheduler.tickN, TimeSlotScheduler.tick, ih]

theorem tickNSlot_currentSlot (n : Nat) (s : TimeSlotScheduler) :
    (TimeSlotScheduler.tickN n s).currentSlot = s.currentSlot := by
  induction n with
  | zero => rfl
  | succ k ih => simp [TimeSlotScheduler.tickN, TimeSlotScheduler.tick, ih]

theorem tickNSlot_dur (n : Nat) (s : TimeSlotScheduler) :
    (TimeSlotScheduler.tickN n s).slotDurationMs = s.slotDurationMs := by
  induction n with
  | zero => rfl
  | succ k ih => simp [TimeSlotScheduler.tickN, TimeSlotScheduler.tick, ih]

theorem tickNSlot_last (n : Nat) (s : TimeSlotScheduler) :
    (TimeSlotScheduler.tickN n s).lastSlotTimeMs = s.lastSlotTimeMs := by
  induction n with
  | zero => rfl
  | succ k ih => simp [TimeSlotScheduler.tickN, TimeSlotScheduler.tick, ih]

theorem tickNSlot_time (n : Nat) (s : TimeSlotScheduler)
    (h : s.currentTimeMs < U32) :
    (TimeSlotScheduler.tickN n s).currentTimeMs = (s.currentTimeMs + n) % U32 := by
  induction n with
  | zero =>
      simp only [TimeSlotScheduler.tickN, Nat.add_zero]
      exact (Nat.mod_eq_of_lt h).symm
  | succ k ih =>
      simp only [TimeSlotScheduler.tickN, TimeSlotScheduler.tick, ih]
      simp only [U32]
      omega

/-- Structural invariant of all reachable slot-scheduler states: at least one
slot, and the current slot index in range. -/
theorem reachable_slot_invariant (maxTasksPerSlot : Nat) (s : TimeSlotScheduler)
    (hr : TimeSlotScheduler.Reachable maxTasksPerSlot s) :
    1 ≤ s.slots.length ∧ s.currentSlot < s.slots.length := by
  induction hr with
  | init n d h => exact ⟨by simpa [mkTimeSlotScheduler] using h,
      by simpa [mkTimeSlotScheduler] using h⟩
  | tick _ ih => simpa [TimeSlotScheduler.tick] using ih
  | run hs ih =>
      rename_i t
      obtain ⟨h1, h2⟩ := ih
      rw [runSlot_slots]
      refine ⟨h1, ?_⟩
      by_cases h : u32sub t.currentTimeMs t.lastSlotTimeMs ≥ t.slotDurationMs
      · rw [runSlot_pos t h]
        exact Nat.mod_lt _ h1
      · rw [runSlot_neg t (Nat.not_le.mp h)]
        exact h2
  | add i t _ ih =>
      obtain ⟨h1, h2⟩ := ih
      rw [addSlot_slots_length, addSlot_currentSlot]
      exact ⟨h1, h2⟩

/-- C5: in every reachable state the current slot index lies in
`[0, SlotsPerCycle)`, and a `run()` call makes at most one slot transition:
when the unsigned elapsed time since the last transition has reached the slot
duration it dispatches exactly the current slot's tasks, advances the current
slot by exactly one modulo the slot count and resets the transition time —
even when several slot durations have elapsed — and otherwise it changes
nothing. -/
theorem current_slot_in_range_one_transition_per_run (maxTasksPerSlot : Nat)
    (s : TimeSlotScheduler)
    (hr : TimeSlotScheduler.Reachable maxTasksPerSlot s) :
    s.currentSlot < s.slots.length ∧
    (u32sub s.currentTimeMs s.lastSlotTimeMs ≥ s.slotDurationMs →
      s.run.snd = (s.slots.getD s.currentSlot ⟨[]⟩).tasks ∧
      s.run.fst.currentSlot = (s.currentSlot + 1) % s.slots.length ∧
      s.run.fst.lastSlotTimeMs = s.currentTimeMs ∧
      s.run.fst.slots = s.slots ∧
      s.run.fst.currentTimeMs = s.currentTimeMs) ∧
    (u32sub s.currentTimeMs s.lastSlotTimeMs < s.slotDurationMs →
      s.run = (s, [])) := by
  refine ⟨(reachable_slot_invariant maxTasksPerSlot s hr).2, ?_, runSlot_neg s⟩
  intro h
  rw [runSlot_pos s h]
  exact ⟨rfl, rfl, rfl, rfl, rfl⟩

/-- Witness for C5 on the freshly constructed 4-slot scheduler. -/
theorem current_slot_in_range_one_transition_per_run_witness :
    (mkTimeSlotScheduler 4 10).currentSlot < (mkTimeSlotScheduler 4 10).slots.length ∧
    (u32sub (mkTimeSlotScheduler 4 10).currentTimeMs
        (mkTimeSlotScheduler 4 10).lastSlotTimeMs <
        (mkTimeSlotScheduler 4 10).slotDurationMs →
      (mkTimeSlotScheduler 4 10).run = (mkTimeSlotScheduler 4 10, [])) :=
  ⟨(current_slot_in_range_one_transition_per_run 2 (mkTimeSlotScheduler 4 10)
      (TimeSlotScheduler.Reachable.init 4 10 (by decide))).1,
    (current_slot_in_range_one_transition_per_run 2 (mkTimeSlotScheduler 4 10)
      (TimeSlotScheduler.Reachable.init 4 10 (by decide))).2.2⟩

/-! ### One major cycle of the time-slot scheduler -/

/-- Driving the scheduler through a sequence of iterations, each being some
number of `tick()` calls followed by one `run()` call. -/
def driveIter : List Nat → TimeSlotScheduler → TimeSlotScheduler
  | [], s => s
  | d :: ds, s => driveIter ds ((TimeSlotScheduler.tickN d s).run).fst

/-- The slot that is current (hence the one executed, when the `run()`
observes a full slot duration) at each driving iteration. -/
def driveFired : List Nat → TimeSlotScheduler → List Nat
  | [], _ => []
  | d :: ds, s => s.currentSlot :: driveFired ds ((TimeSlotScheduler.tickN d s).run).fst

/-- The in-sync states from which lock-step driving is analysed: at least one
slot, current slot in range, duration and time below `2^32`, and the last
transition time equal to the current time. -/
def InSync (s : TimeSlotScheduler) : Prop :=
  1 ≤ s.slots.length ∧ s.currentSlot < s.slots.length ∧
  s.slotDurationMs < U32 ∧
  s.lastSlotTimeMs = s.currentTimeMs ∧ s.currentTimeMs < U32

theorem driveStep_spec (s : TimeSlotScheduler) (d : Nat) (h : InSync s)
    (hd1 : s.slotDurationMs ≤ d) (hd2 : d < U32) :
    ((TimeSlotScheduler.tickN d s).run).snd =
      (s.slots.getD s.currentSlot ⟨[]⟩).tasks ∧
    (((TimeSlotScheduler.tickN d s).run).fst).currentSlot =
      (s.currentSlot + 1) % s.slots.length ∧
    (((TimeSlotScheduler.tickN d s).run).fst).slots = s.slots ∧
    (((TimeSlotScheduler.tickN d s).run).fst).slotDurationMs = s.slotDurationMs ∧
    InSync (((TimeSlotScheduler.tickN d s).run).fst) := by
  obtain ⟨hlen, hslot, hdur2, hsync, htime⟩ := h
  have ht : (TimeSlotScheduler.tickN d s).currentTimeMs =
      (s.currentTimeMs + d) % U32 := tickNSlot_time _ _ htime
  have helapsed : u32sub (TimeSlotScheduler.tickN d s).currentTimeMs
      (TimeSlotScheduler.tickN d s).lastSlotTimeMs ≥
      (TimeSlotScheduler.tickN d s).slotDurationMs := by
    rw [ht, tickNSlot_last, tickNSlot_dur, hsync]
    rw [u32sub_add_ticks _ _ htime hd2]
    exact hd1
  have hrun := runSlot_pos _ helapsed
  have hfst : ((TimeSlotScheduler.tickN d s).run).fst =
      { TimeSlotScheduler.tickN d s with
          currentSlot := ((TimeSlotScheduler.tickN d s).currentSlot + 1) %
            (TimeSlotScheduler.tickN d s).slots.length,
          lastSlotTimeMs := (TimeSlotScheduler.tickN d s).currentTimeMs } := by
    rw [hrun]
  refine ⟨?_, ?_, ?_, ?_, ?_⟩
  · rw [hrun]
    rw [tickNSlot_slots, tickNSlot_currentSlot]
  · rw [hfst]
    show ((TimeSlotScheduler.tickN d s).currentSlot + 1) %
      (TimeSlotScheduler.tickN d s).slots.length =
      (s.currentSlot + 1) % s.slots.length
    rw [tickNSlot_slots, tickNSlot_currentSlot]
  · rw [hfst]
    show (TimeSlotScheduler.tickN d s).slots = s.slots
    exact tickNSlot_slots _ _
  · rw [hfst]
    show (TimeSlotScheduler.tickN d s).slotDurationMs = s.slotDurationMs
    exact tickNSlot_dur _ _
  · rw [hfst]
    refine ⟨?_, ?_, ?_, ?_, ?_⟩
    · show 1 ≤ (TimeSlotScheduler.tickN d s).slots.length
      rw [tickNSlot_slots]; exact hlen
    · show ((TimeSlotScheduler.tickN d s).currentSlot + 1) %
        (TimeSlotScheduler.tickN d s).slots.length <
        (TimeSlotScheduler.tickN d s).slots.length
      rw [tickNSlot_slots]
      exact Nat.mod_lt _ hlen
    · show (TimeSlotScheduler.tickN d s).slotDurationMs < U32
      rw [tickNSlot_dur]; exact hdur2
    · rfl
    · show (TimeSlotScheduler.tickN d s).currentTimeMs < U32
      rw [ht]
      exact Nat.mod_lt _ (by simp [U32])

theorem driveIter_spec (ds : List Nat) (s : TimeSlotScheduler) (h : InSync s)
    (hds : ∀ d ∈ ds, s.slotDurationMs ≤ d ∧ d < U32) :
    (driveIter ds s).currentSlot = (s.currentSlot + ds.length) % s.slots.length ∧
    driveFired ds s =
      (List.range ds.length).map (fun j => (s.currentSlot + j) % s.slots.length) := by
  induction ds generalizing s with
  | nil =>
      simp only [driveIter, driveFired, List.length_nil, List.range_zero,
        List.map_nil, Nat.add_zero]
      exact ⟨(Nat.mod_eq_of_lt h.2.1).symm, trivial⟩
  | cons d ds ih =>
      obtain ⟨hd1, hd2⟩ := hds d (List.mem_cons_self d ds)
      obtain ⟨-, hstep2, hstep3, hstep4, hstepSync⟩ := driveStep_spec s d h hd1 hd2
      have hds2 : ∀ e ∈ ds,
          (((TimeSlotScheduler.tickN d s).run).fst).slotDurationMs ≤ e ∧ e < U32 := by
        intro e he
        rw [hstep4]
        exact hds e (List.mem_cons_of_mem d he)
      obtain ⟨ih1, ih2⟩ := ih ((TimeSlotScheduler.tickN d s).run).fst hstepSync hds2
      constructor
      · show (driveIter ds ((TimeSlotScheduler.tickN d s).run).fst).currentSlot = _
        rw [ih1, hstep3, hstep2, Nat.mod_add_mod]
        have : s.currentSlot + 1 + ds.length = s.currentSlot + (d :: ds).length := by
          simp; omega
        rw [this]
      · show s.currentSlot :: driveFired ds ((TimeSlotScheduler.tickN d s).run).fst = _
        rw [ih2, hstep3, hstep2]
        show _ = (List.range (ds.length + 1)).map
          (fun j => (s.currentSlot + j) % s.slots.length)
        rw [List.range_succ_eq_map, List.map_cons, List.map_map]
        have hhead : (s.currentSlot + 0) % s.slots.length = s.currentSlot := by
          rw [Nat.add_zero]
          exact Nat.mod_eq_of_lt h.2.1
        rw [hhead]
        refine congrArg (s.currentSlot :: ·) ?_
        refine List.map_congr_left ?_
        intro j hj
        show ((s.currentSlot + 1) % s.slots.length + j) % s.slots.length =
          (s.currentSlot + Nat.succ j) % s.slots.length
        rw [Nat.mod_add_mod]
        have : s.currentSlot + 1 + j = s.currentSlot + Nat.succ j := by omega
        rw [this]

/-- The rotated enumeration of slot indices over one major cycle is a
permutation of all slot indices: each slot appears exactly once. -/
theorem rotated_range_perm (S n : Nat) (hn : 1 ≤ n) :
    ((List.range n).map (fun j => (S + j) % n)).Perm (List.range n) := by
  have hnd : ((List.range n).map (fun j => (S + j) % n)).Nodup := by
    refine List.Nodup.map_on ?_ (List.nodup_range n)
    intro x hx y hy hxy
    rw [List.mem_range] at hx hy
    exact add_mod_inj S n x y hx hy hxy
  rw [List.perm_ext_iff_of_nodup hnd (List.nodup_range n)]
  intro a
  simp only [List.mem_map, List.mem_range]
  constructor
  · rintro ⟨j, hj, rfl⟩
    exact Nat.mod_lt _ hn
  · intro ha
    exact ⟨(a + n - S % n) % n, Nat.mod_lt _ hn, add_mod_cover S n a hn ha⟩

/-- C6: from any in-sync state and any slot `S`, driving the scheduler with
`SlotsPerCycle` iterations, each consisting of at least one slot duration of
ticks followed by one `run()` call (so `run()` observes a full slot duration
exactly `SlotsPerCycle` times), makes every slot index the executing slot
exactly once and returns `currentSlot` to `S`; concretely, with 4 slots of
duration 10, advancing 10 ticks then calling `run()`, four times, returns
`currentSlot` to 0 after executing slots 0, 1, 2, 3. -/
theorem major_cycle_rotation (s : TimeSlotScheduler) (ds : List Nat)
    (h : InSync s) (hn : ds.length = s.slots.length)
    (hds : ∀ d ∈ ds, s.slotDurationMs ≤ d ∧ d < U32) :
    (driveIter ds s).currentSlot = s.currentSlot ∧
    (driveFired ds s).Perm (List.range s.slots.length) ∧
    (driveIter [10, 10, 10, 10] (mkTimeSlotScheduler 4 10)).currentSlot = 0 ∧
    driveFired [10, 10, 10, 10] (mkTimeSlotScheduler 4 10) = [0, 1, 2, 3] := by
  obtain ⟨h1, h2⟩ := driveIter_spec ds s h hds
  refine ⟨?_, ?_, by decide, by decide⟩
  · rw [h1, hn, Nat.add_mod_right]
    exact Nat.mod_eq_of_lt h.2.1
  · rw [h2, hn]
    exact rotated_range_perm s.currentSlot s.slots.length h.1

/-- Witness for C6 on the fresh 4-slot, duration-10 scheduler driven in lock
step. -/
theorem major_cycle_rotation_witness :
    InSync (mkTimeSlotScheduler 4 10) ∧
    ([10, 10, 10, 10] : List Nat).length = (mkTimeSlotScheduler 4 10).slots.length ∧
    (∀ d ∈ ([10, 10, 10, 10] : List Nat),
      (mkTimeSlotScheduler 4 10).slotDurationMs ≤ d ∧ d < U32) ∧
    (driveIter [10, 10, 10, 10] (mkTimeSlotScheduler 4 10)).currentSlot =
      (mkTimeSlotScheduler 4 10).currentSlot :=
  ⟨⟨by decide, by decide, by decide, by decide, by decide⟩, by decide, by decide,
    (major_cycle_rotation (mkTimeSlotScheduler 4 10) [10, 10, 10, 10]
      ⟨by decide, by decide, by decide, by decide, by decide⟩ (by decide)
      (by decide)).1⟩


/-- C8: the time counter starts at zero, `tick()` increments it by exactly
one modulo `2^32`, and the elapsed time computed by `run()` is the unsigned
modular difference, so that when the counter reads `lastRun + k (mod 2^32)`
after `k < 2^32` true ticks since an entry's last run — even if the counter
wrapped past zero in between — the computed elapsed time equals `k` and the
entry fires exactly when `k` has reached its period. -/
theorem modular_elapsed_time_wraparound (ce : CyclicExecutive)
    (task p lastRun rc k : Nat) (hl : lastRun < U32) (hk : k < U32) :
    mkCyclicExecutive.currentTimeMs = 0 ∧
    ce.tick.currentTimeMs = (ce.currentTimeMs + 1) % U32 ∧
    u32sub ((lastRun + k) % U32) lastRun = k ∧
    ((stepEntry ((lastRun + k) % U32) ⟨task, p, lastRun, rc⟩).snd = true ↔ p ≤ k) := by
  have hsub : u32sub ((lastRun + k) % U32) lastRun = k := u32sub_add_ticks lastRun k hl hk
  refine ⟨rfl, rfl, hsub, ?_⟩
  simp only [stepEntry]
  by_cases h : p ≤ u32sub ((lastRun + k) % U32) lastRun
  · rw [if_pos h]
    rw [hsub] at h
    simp [h]
  · rw [if_neg h]
    rw [hsub] at h
    simp [h]

/-- Witness for C8 across a wraparound: last run at `2^32 - 5`, 12 ticks
later the counter reads 7 and a period-10 task is due. -/
theorem modular_elapsed_time_wraparound_witness :
    (4294967291 : Nat) < U32 ∧ (12 : Nat) < U32 ∧
    u32sub ((4294967291 + 12) % U32) 4294967291 = 12 ∧
    ((stepEntry ((4294967291 + 12) % U32) ⟨1, 10, 4294967291, 0⟩).snd = true ↔
      (10 : Nat) ≤ 12) :=
  ⟨by decide, by decide,
    (modular_elapsed_time_wraparound mkCyclicExecutive 1 10 4294967291 0 12
      (by decide) (by decide)).2.2.1,
    (modular_elapsed_time_wraparound mkCyclicExecutive 1 10 4294967291 0 12
      (by decide) (by decide)).2.2.2⟩

end CyclicExec
